import Mathlib

/-!
Verification of the concurrent key-value HTTP demo server (`server.go`).

The store is `s.data : map[string]string` guarded by a `sync.RWMutex`.
We embed the map as an association list with pairwise-distinct keys (the
invariant every Go map maintains).  The three operations performed by the
handlers are embedded as pure functions:

* `setEntry d k v` — Go map assignment `s.data[k] = v` (replace or insert);
* `find d k`       — Go map lookup in its comma-ok form (`v, ok := m[k]`);
* `goIndex d k`    — Go single-value map indexing `s.data[k]`, which yields
  the zero value `""` when the key is absent;
* `goFmtMap d`     — `fmt`'s `%v` rendering of a `map[string]string`
  (`map[k1:v1 k2:v2]`, keys sorted);
* `show' d k`      — the body written by the `show` handler for path
  parameter `key = k` (`show` is a Lean keyword, hence the prime);
* `update d k v`   — the `update` handler: the new store and the body.

The handlers run concurrently, but every store access is performed under
the `RWMutex` (`RLock` around reads, `Lock` around the write), so each
operation is atomic and any concurrent execution is an interleaving of the
atomic operations; we model concurrency as such interleavings.
-/

/-- The store contents: Go's `map[string]string` as an association list. -/
abbrev Store := List (String × String)

/-- Go map lookup in comma-ok form: `v, ok := m[k]` is `find d k = some v`
vs `find d k = none`. -/
def find : Store → String → Option String
  | [], _ => none
  | (k', v') :: rest, k => if k' = k then some v' else find rest k

/-- Go single-value map indexing `s.data[k]`: the stored value, or the zero
value `""` when the key is absent (as used at `server.go:104`). -/
def goIndex (d : Store) (k : String) : String :=
  (find d k).getD ""

/-- Go map assignment `s.data[k] = v` (`server.go:116`): replace the value
if the key is present, insert the pair otherwise. -/
def setEntry : Store → String → String → Store
  | [], k, v => [(k, v)]
  | (k', v') :: rest, k, v =>
      if k' = k then (k, v) :: rest else (k', v') :: setEntry rest k v

/-- The keys of the store. -/
def keys (d : Store) : List String :=
  d.map Prod.fst

/-- The Go-map invariant: keys are pairwise distinct. -/
def goodStore (d : Store) : Prop :=
  (keys d).Nodup

instance : DecidablePred goodStore := fun d =>
  inferInstanceAs (Decidable (keys d).Nodup)

/-- `fmt`'s rendering of one map entry inside `%v`: `key:value`. -/
def fmtEntry (e : String × String) : String :=
  e.1 ++ ":" ++ e.2

/-- `fmt`'s `%v` rendering of a `map[string]string`
(`server.go:95`): `map[` + space-separated `key:value` entries, keys in
sorted order, + `]`.  The empty map renders as `map[]`. -/
def goFmtMap (d : Store) : String :=
  "map[" ++
    String.intercalate " "
      ((d.mergeSort (fun a b => a.1 ≤ b.1)).map fmtEntry) ++ "]"

/-- The body written by the `show` handler (`server.go:84-105`) for path
parameter `key = k`: if `k` is empty the whole map is listed, otherwise a
single entry is printed. -/
def show' (d : Store) (k : String) : String :=
  if k = "" then "Read list: " ++ goFmtMap d
  else "Read entry: s.data[" ++ k ++ "] = " ++ goIndex d k

/-- The `update` handler (`server.go:108-121`) for path parameters
`key = k`, `value = v`: the store after `s.data[k] = v` together with the
body written to the response. -/
def update (d : Store) (k v : String) : Store × String :=
  (setEntry d k v, "Updated: s.data[" ++ k ++ "] = " ++ v)

/-- The store operations performed by the handlers, as abstract events:
a read of one key, a listing, or a write.  Each is atomic under the
store's `RWMutex`. -/
inductive Op where
  | get : String → Op
  | list : Op
  | set : String → String → Op
  deriving DecidableEq, Repr

/-- The effect of one operation on the store: only `set` mutates. -/
def applyOp (d : Store) : Op → Store
  | .set k v => setEntry d k v
  | .get _ => d
  | .list => d

/-- The store after a sequence of operations. -/
def applyOps (d : Store) : List Op → Store
  | [] => d
  | op :: rest => applyOps (applyOp d op) rest

/-- Whether an operation writes the key `k`. -/
def writesKey (k : String) : Op → Bool
  | .set k' _ => k' = k
  | .get _ => false
  | .list => false

/-- The two serializations of two concurrent `set k _` writes: the
`RWMutex` makes each write atomic, so any concurrent execution of the two
writes is one of the two orders. -/
def concurrentSets (d : Store) (k a b : String) : Bool → Store
  | true => setEntry (setEntry d k a) k b
  | false => setEntry (setEntry d k b) k a

/-! ### Basic lemmas about the embedded operations -/

/-- After `s.data[k] = v`, looking up `k` yields `v`. -/
theorem find_setEntry_self (d : Store) (k v : String) :
    find (setEntry d k v) k = some v := by
  induction d with
  | nil => simp [setEntry, find]
  | cons e rest ih =>
      obtain ⟨k', v'⟩ := e
      by_cases h : k' = k
      · simp [setEntry, h, find]
      · simp [setEntry, h, find, ih]

/-- `s.data[k] = v` does not touch the binding of any other key. -/
theorem find_setEntry_ne (d : Store) (k v k' : String) (h : k' ≠ k) :
    find (setEntry d k v) k' = find d k' := by
  have hne : k ≠ k' := fun he => h he.symm
  induction d with
  | nil => simp [setEntry, find, hne]
  | cons e rest ih =>
      obtain ⟨k₀, v₀⟩ := e
      by_cases hk : k₀ = k
      · subst hk
        simp [setEntry, find, hne]
      · by_cases hk' : k₀ = k'
        · subst hk'
          simp [setEntry, hk, find]
        · simp [setEntry, hk, find, hk', ih]

/-- A key is in the store after `s.data[k] = v` iff it is `k` or was
already there. -/
theorem mem_keys_setEntry (d : Store) (k v k' : String) :
    k' ∈ keys (setEntry d k v) ↔ k' = k ∨ k' ∈ keys d := by
  induction d with
  | nil => simp [setEntry, keys]
  | cons e rest ih =>
      obtain ⟨k₀, v₀⟩ := e
      by_cases hk : k₀ = k
      · subst hk
        simp [setEntry, keys, or_comm]
      · simp only [setEntry, hk, if_false, keys, List.map_cons, List.mem_cons]
        constructor
        · rintro (h | h)
          · exact Or.inr (Or.inl h)
          · rcases (ih).mp h with h | h
            · exact Or.inl h
            · exact Or.inr (Or.inr h)
        · rintro (h | h | h)
          · exact Or.inr (ih.mpr (Or.inl h))
          · exact Or.inl h
          · exact Or.inr (ih.mpr (Or.inr h))

/-- Map assignment preserves the Go-map invariant. -/
theorem goodStore_setEntry (d : Store) (k v : String) (hd : goodStore d) :
    goodStore (setEntry d k v) := by
  induction d with
  | nil => simp [setEntry, goodStore, keys]
  | cons e rest ih =>
      obtain ⟨k₀, v₀⟩ := e
      simp only [goodStore, keys, List.map_cons, List.nodup_cons] at hd
      by_cases hk : k₀ = k
      · subst hk
        simpa [setEntry, goodStore, keys] using hd
      · have h1 : goodStore (setEntry rest k v) := ih hd.2
        have h2 : k₀ ∉ keys (setEntry rest k v) := by
          rw [mem_keys_setEntry]
          rintro (h | h)
          · exact hk h
          · exact hd.1 h
        simp only [setEntry, if_neg hk, goodStore, keys, List.map_cons,
          List.nodup_cons]
        exact ⟨h2, h1⟩

/-- A pair whose key is not among the store's keys is not in the store. -/
theorem not_mem_of_not_mem_keys (d : Store) (e : String × String)
    (h : e.1 ∉ keys d) : e ∉ d :=
  fun hmem => h (show e.1 ∈ keys d from List.mem_map.mpr ⟨e, hmem, rfl⟩)

/-- In a store with distinct keys, a pair whose key is bound to its value
occurs exactly once. -/
theorem count_eq_one_of_find (d : Store) (k v : String)
    (hd : goodStore d) (h : find d k = some v) :
    d.count (k, v) = 1 := by
  induction d with
  | nil => simp [find] at h
  | cons e rest ih =>
      obtain ⟨k₀, v₀⟩ := e
      simp only [goodStore, keys, List.map_cons, List.nodup_cons] at hd
      by_cases hk : k₀ = k
      · subst hk
        have hv : v₀ = v := by simpa [find] using h
        subst hv
        have hnot : (k₀, v₀) ∉ rest :=
          not_mem_of_not_mem_keys rest (k₀, v₀) hd.1
        rw [List.count_cons_self, List.count_eq_zero.mpr hnot]
      · have h' : find rest k = some v := by simpa [find, hk] using h
        have hne : (k, v) ≠ (k₀, v₀) := fun he =>
          hk (congrArg Prod.fst he).symm
        rw [List.count_cons_of_ne hne]
        exact ih hd.2 h'

/-- The list body (`"Read list: ..."`) and the entry body
(`"Read entry: ..."`) are never the same string: they differ at the sixth
character. -/
theorem readList_ne_readEntry (x k v : String) :
    "Read list: " ++ x ≠ "Read entry: s.data[" ++ k ++ "] = " ++ v := by
  intro h
  have h2 := congrArg String.data h
  simp only [String.data_append] at h2
  simp at h2

/-- A bound key keeps its value through any operation sequence that never
writes that key. -/
theorem find_applyOps (d : Store) (k v : String) (ops : List Op)
    (hd : find d k = some v)
    (h : ∀ op ∈ ops, writesKey k op = false) :
    find (applyOps d ops) k = some v := by
  induction ops generalizing d with
  | nil => exact hd
  | cons op rest ih =>
      have hop : find (applyOp d op) k = some v := by
        cases op with
        | get _ => exact hd
        | list => exact hd
        | set k' v' =>
            have hk : k' ≠ k := by
              have := h (Op.set k' v') (List.mem_cons_self _ _)
              simpa [writesKey] using this
            rw [applyOp, find_setEntry_ne d k' v' k fun he => hk he.symm]
            exact hd
      exact ih (applyOp d op) hop fun op' hmem =>
        h op' (List.mem_cons_of_mem _ hmem)

/-- C1 counterexample: the claim says `get` on an unset key returns an
absent indicator distinguishable from `get` on a key holding the empty
string.  In the code the read is single-value map indexing (`s.data[k]`,
`server.go:104`), which yields the zero value `""` for the absent key
`"k"` of the empty store — the very same result as on a store where
`"k"` is bound to `""`. -/
theorem C1_counterexample :
    find ([] : Store) "k" = none ∧
    find [("k", "")] "k" = some "" ∧
    goIndex ([] : Store) "k" = goIndex [("k", "")] "k" := by
  refine ⟨rfl, by simp [find], rfl⟩

/-- C1 (amended): for every key absent from the store, the single-value
read used by the handlers returns the zero value `""` and never fails;
that result coincides with the one for a key stored with the empty value,
and absence is distinguishable only through the comma-ok map lookup
(`find`), not through the result of the read. -/
theorem C1_get_absent (d : Store) (k : String) (h : find d k = none) :
    goIndex d k = "" ∧ find d k ≠ find (setEntry d k "") k := by
  refine ⟨by simp [goIndex, h], ?_⟩
  rw [h, find_setEntry_self]
  simp

theorem C1_get_absent_witness :
    goIndex ([] : Store) "a" = "" ∧
    find ([] : Store) "a" ≠ find (setEntry ([] : Store) "a" "") "a" :=
  C1_get_absent [] "a" rfl

/-- C2 counterexample: the entry route's body is not
`"Read entry: data[{key}] = {value}"` — on the store `{color ↦ red}` the
body for key `color` is `"Read entry: s.data[color] = red"` (the format
string at `server.go:104` prints `s.data[%s]`, not `data[%s]`). -/
theorem C2_counterexample :
    show' [("color", "red")] "color" ≠ "Read entry: data[color] = red" := by
  decide

/-- C2 (amended): for every nonempty key `k`, the body of
`GET /entry/{k}` is exactly `"Read entry: s.data[{k}] = {value}"`, where
`{value}` is the stored value of `k`, or the empty string when `k` is
absent. -/
theorem C2_entry_body (d : Store) (k : String) (hk : k ≠ "") :
    (∀ v, find d k = some v →
      show' d k = "Read entry: s.data[" ++ k ++ "] = " ++ v) ∧
    (find d k = none → show' d k = "Read entry: s.data[" ++ k ++ "] = ") := by
  constructor
  · intro v hv
    simp [show', hk, goIndex, hv]
  · intro hv
    simp [show', hk, goIndex, hv]

theorem C2_entry_body_witness :
    show' [("color", "red")] "color" =
      "Read entry: s.data[" ++ "color" ++ "] = " ++ "red" ∧
    show' ([] : Store) "missing" =
      "Read entry: s.data[" ++ "missing" ++ "] = " := by
  refine ⟨?_, ?_⟩
  · exact (C2_entry_body [("color", "red")] "color" (by decide)).1 "red"
      (by simp [find])
  · exact (C2_entry_body ([] : Store) "missing" (by decide)).2 rfl

/-- C3 counterexample: the body of `PUT /entry/color/red` is not
`"Updated: data[color] = red"` — the format string at `server.go:120`
prints `s.data[%s]`, so the body is `"Updated: s.data[color] = red"`. -/
theorem C3_counterexample :
    (update ([] : Store) "color" "red").2 ≠ "Updated: data[color] = red" := by
  decide

/-- C3 (amended): for every key `k` and value `v` and every store, the
body of `PUT /entry/{k}/{v}` is exactly `"Updated: s.data[{k}] = {v}"`;
in particular `PUT /entry/color/red` yields
`"Updated: s.data[color] = red"`. -/
theorem C3_update_body (d : Store) (k v : String) :
    (update d k v).2 = "Updated: s.data[" ++ k ++ "] = " ++ v ∧
    (update d "color" "red").2 = "Updated: s.data[color] = red" :=
  ⟨rfl, rfl⟩

/-- C4: after `set k v`, a lookup of `k` returns `v`, and keeps returning
`v` after any further sequence of operations containing no write to `k`. -/
theorem C4_set_then_get (d : Store) (k v : String) (ops : List Op)
    (h : ∀ op ∈ ops, writesKey k op = false) :
    find (applyOps (setEntry d k v) ops) k = some v ∧
    goIndex (applyOps (setEntry d k v) ops) k = v := by
  have hf := find_applyOps (setEntry d k v) k v ops (find_setEntry_self d k v) h
  exact ⟨hf, by simp [goIndex, hf]⟩

theorem C4_set_then_get_witness :
    find (applyOps (setEntry ([] : Store) "a" "1")
      [Op.get "x", Op.set "b" "2", Op.list]) "a" = some "1" ∧
    goIndex (applyOps (setEntry ([] : Store) "a" "1")
      [Op.get "x", Op.set "b" "2", Op.list]) "a" = "1" :=
  C4_set_then_get [] "a" "1" [Op.get "x", Op.set "b" "2", Op.list]
    (by decide)

/-- C5: `set` is idempotent — writing the same key/value twice in
sequence yields the same store state as writing it once. -/
theorem C5_set_idempotent (d : Store) (k v : String) :
    setEntry (setEntry d k v) k v = setEntry d k v := by
  induction d with
  | nil => simp [setEntry]
  | cons e rest ih =>
      obtain ⟨k₀, v₀⟩ := e
      by_cases hk : k₀ = k
      · subst hk
        simp [setEntry]
      · simp [setEntry, hk, ih]

/-- C6: after `set k₁ v₁` then `set k₂ v₂` with `k₁ ≠ k₂` on a store with
the Go-map invariant, the store listed by `list()` contains the entry
`(k₁, v₁)` and the entry `(k₂, v₂)` exactly once each, and every other
key's binding is unchanged (no entry dropped). -/
theorem C6_list_after_two_sets (d : Store) (k₁ k₂ v₁ v₂ : String)
    (hk : k₁ ≠ k₂) (hd : goodStore d) :
    (setEntry (setEntry d k₁ v₁) k₂ v₂).count (k₁, v₁) = 1 ∧
    (setEntry (setEntry d k₁ v₁) k₂ v₂).count (k₂, v₂) = 1 ∧
    ∀ k', k' ≠ k₁ → k' ≠ k₂ →
      find (setEntry (setEntry d k₁ v₁) k₂ v₂) k' = find d k' := by
  have hgood : goodStore (setEntry (setEntry d k₁ v₁) k₂ v₂) :=
    goodStore_setEntry _ _ _ (goodStore_setEntry _ _ _ hd)
  have hf1 : find (setEntry (setEntry d k₁ v₁) k₂ v₂) k₁ = some v₁ := by
    rw [find_setEntry_ne _ _ _ _ hk, find_setEntry_self]
  have hf2 : find (setEntry (setEntry d k₁ v₁) k₂ v₂) k₂ = some v₂ :=
    find_setEntry_self _ _ _
  refine ⟨count_eq_one_of_find _ _ _ hgood hf1,
    count_eq_one_of_find _ _ _ hgood hf2, fun k' h1 h2 => ?_⟩
  rw [find_setEntry_ne _ _ _ _ h2, find_setEntry_ne _ _ _ _ h1]

theorem C6_list_after_two_sets_witness :
    (setEntry (setEntry [("x", "0")] "a" "1") "b" "2").count ("a", "1") = 1 ∧
    (setEntry (setEntry [("x", "0")] "a" "1") "b" "2").count ("b", "2") = 1 ∧
    find (setEntry (setEntry [("x", "0")] "a" "1") "b" "2") "x" =
      find [("x", "0")] "x" := by
  have h := C6_list_after_two_sets [("x", "0")] "a" "b" "1" "2"
    (by decide) (by decide)
  exact ⟨h.1, h.2.1, h.2.2 "x" (by decide) (by decide)⟩

/-- C7: `GET /list` on the empty store renders the body
`"Read list: map[]"` — `fmt`'s empty-map rendering, which lists no
entries (the rendered entry list is empty). -/
theorem C7_empty_list_body :
    show' ([] : Store) "" = "Read list: map[]" ∧
    goFmtMap ([] : Store) = "map[]" ∧
    ((([] : Store).mergeSort (fun a b => a.1 ≤ b.1)).map fmtEntry) = [] := by
  refine ⟨?_, ?_, by simp⟩
  · simp only [show', if_pos rfl, goFmtMap, List.mergeSort_nil, List.map_nil]
    decide
  · simp only [goFmtMap, List.mergeSort_nil, List.map_nil]
    decide

/-- C8: two concurrent writes `set k "A"` and `set k "B"` are each atomic
under the store's write lock, so any concurrent execution is one of the
two serializations; in both, the subsequent read of `k` yields exactly
`"A"` or exactly `"B"`, never a mix. -/
theorem C8_concurrent_sets (d : Store) (k : String) (order : Bool) :
    goIndex (concurrentSets d k "A" "B" order) k = "A" ∨
    goIndex (concurrentSets d k "A" "B" order) k = "B" := by
  cases order with
  | true =>
      exact Or.inr (by simp [concurrentSets, goIndex, find_setEntry_self])
  | false =>
      exact Or.inl (by simp [concurrentSets, goIndex, find_setEntry_self])

/-- C9: `set k v` is frame-preserving — every key other than `k` keeps
its binding (value or absence), and the key set grows at most by `k`. -/
theorem C9_set_frame (d : Store) (k v k' : String) :
    (k' ≠ k → find (setEntry d k v) k' = find d k') ∧
    (k' ∈ keys (setEntry d k v) ↔ k' = k ∨ k' ∈ keys d) :=
  ⟨fun h => find_setEntry_ne d k v k' h, mem_keys_setEntry d k v k'⟩

theorem C9_set_frame_witness :
    find (setEntry [("a", "1")] "b" "2") "a" = find [("a", "1")] "a" ∧
    ("a" ∈ keys (setEntry [("a", "1")] "b" "2") ↔
      "a" = "b" ∨ "a" ∈ keys [("a", "1")]) := by
  have h := C9_set_frame [("a", "1")] "b" "2" "a"
  exact ⟨h.1 (by decide), h.2⟩

/-- C10: the `show` handler dispatches solely on whether the `key` path
parameter is empty — with an empty key it always renders the full-map
listing and never an entry body, so even an entry stored under the
empty-string key is only ever rendered as part of the listing. -/
theorem C10_empty_key_lists (d : Store) (k v : String) :
    show' d "" = "Read list: " ++ goFmtMap d ∧
    show' d "" ≠ "Read entry: s.data[" ++ k ++ "] = " ++ v := by
  have hlist : show' d "" = "Read list: " ++ goFmtMap d := by
    simp [show']
  exact ⟨hlist, fun h =>
    readList_ne_readEntry (goFmtMap d) k v (hlist.symm.trans h)⟩

theorem C10_empty_key_lists_witness :
    show' [("", "hidden")] "" = "Read list: " ++ goFmtMap [("", "hidden")] ∧
    show' [("", "hidden")] "" ≠
      "Read entry: s.data[" ++ "" ++ "] = " ++ "hidden" :=
  C10_empty_key_lists [("", "hidden")] "" "hidden"
